import Mathlib

/-!
A shallow embedding of `executils.go`.

The Go package wraps `os/exec`: `Run` builds an `*exec.Cmd` from a command
string, lets a list of option closures edit it, expands `$VAR` references,
optionally prints the command line, runs the child and wraps a failure into an
error whose message carries the exit status computed by `ExitStatus`.

Everything the package takes from its host (the environment, the current
directory, `$PATH` lookup and the outcome of running a child) is collected in
`World`; library routines the package calls are transcribed next to the
function that uses them.
-/

namespace Executils

/-! ## Errors -/

/-- What the call `e.Sys()` of line 117 does on an `*exec.ExitError`.

* `noState`: the embedded `*os.ProcessState` is nil (as in `&exec.ExitError{}`)
  or the pointer itself is a typed nil, so the call dereferences nil and panics.
* `status a`: the call returns the system status; `a` is `some n` when that
  value has a method `ExitStatus() int` yielding `n` (as `syscall.WaitStatus`
  does), and `none` when it has no such method. -/
inductive SysResult where
  | noState
  | status (accessor : Option Int)
deriving DecidableEq, Repr

/-- What the two type assertions of `ExitStatus` can observe of an error value
that is not a `pkg/errors` wrapper.

* `exitStatusMethod` is `some n` when the dynamic type has a method
  `ExitStatus() int` and calling it yields `n` (assertion `err.(exitStatus)`).
* `exitError` is `some s` when the dynamic type is `*exec.ExitError`; `s` says
  what `e.Sys()` does on it. -/
structure BaseError where
  text : String
  exitStatusMethod : Option Int
  exitError : Option SysResult
deriving DecidableEq, Repr

/-- A non-nil Go `error` value: a base error, or the `*withMessage` value built
by `errors.WithMessagef` of `github.com/pkg/errors`. -/
inductive GoError where
  | base (b : BaseError)
  | withMessage (cause : GoError) (msg : String)
deriving DecidableEq, Repr

/-- A Go `error` interface value; `none` is `nil`. -/
abbrev error := Option GoError

/-- Type assertion `err.(exitStatus)` followed by the call `e.ExitStatus()`.
`*withMessage` has the methods `Error`, `Cause`, `Unwrap` and `Format` only. -/
def GoError.assertExitStatus : GoError → Option Int
  | .base b => b.exitStatusMethod
  | .withMessage _ _ => none

/-- Type assertion `err.(*exec.ExitError)`; the payload says what the call
`e.Sys()` and the inner assertion `e.Sys().(exitStatus)` give. -/
def GoError.assertExitError : GoError → Option SysResult
  | .base b => b.exitError
  | .withMessage _ _ => none

/-- The method `Error()`; for `*withMessage` it is `msg + ": " + cause.Error()`. -/
def GoError.Error : GoError → String
  | .base b => b.text
  | .withMessage cause msg => msg ++ ": " ++ cause.Error

/-- The method `Cause()` of `*withMessage` (what `errors.Cause`/`Unwrap` peel off). -/
def GoError.Cause : GoError → error
  | .base _ => none
  | .withMessage cause _ => some cause

/-- A run-time panic of the Go program. -/
inductive Fault where
  | nilDereference
  | sliceBounds
deriving DecidableEq, Repr

/-- `executils.go` lines 109-122; the call `e.Sys()` of line 117 panics on an
exit error without a process state. -/
def ExitStatus (err : error) : Except Fault Int :=
  match err with
  | none => .ok 0
  | some e =>
    match e.assertExitStatus with
    | some n => .ok n
    | none =>
      match e.assertExitError with
      | some .noState => .error .nilDereference
      | some (.status (some n)) => .ok n
      | some (.status none) => .ok 1
      | none => .ok 1

/-- The verb `%d` of `fmt` applied to an `int`. -/
def fmtInt (n : Int) : String :=
  if n < 0 then "-" ++ Nat.repr n.natAbs else Nat.repr n.toNat

/-- `errors.WithMessagef(err, "Exit code %d", code)` of `github.com/pkg/errors`:
`nil` stays `nil`, any other error is wrapped. -/
def WithMessagef (err : error) (code : Int) : error :=
  match err with
  | none => none
  | some e => some (.withMessage e ("Exit code " ++ fmtInt code))

/-- The `*exec.ExitError` that `(*exec.Cmd).Run` returns for a child that ran
and exited with status `n`: its `Sys()` is a `syscall.WaitStatus`, whose
`ExitStatus()` is `n`; `*exec.ExitError` itself has no `ExitStatus` method. -/
def exitedWith (n : Int) : GoError :=
  .base { text := "exit status " ++ fmtInt n, exitStatusMethod := none,
          exitError := some (.status (some n)) }

/-! ## The invocation descriptor -/

/-- An `io.Writer` value, known by its identity. -/
abbrev Writer := Nat

/-- The fields of `exec.Cmd` that the package and `Cmd.String` read or write.
A nil `io.Writer` is `none`; `Err` is the field `exec.Command` sets when the
lookup of the executable fails. -/
structure Cmd where
  Path : String
  Args : List String
  Env : List String
  Dir : String
  Stdout : Option Writer
  Stderr : Option Writer
  Err : error
deriving DecidableEq, Repr

/-- The struct `Option` of `executils.go` lines 14-17 (renamed, since `Option`
is taken); `Cmd` holds the pointee of the `*exec.Cmd`. -/
structure CmdOption where
  Cmd : Cmd
  Verbose : Bool
deriving DecidableEq, Repr

/-- The type `OptionFns` of `executils.go` line 19: a closure that edits the
descriptor in place, or panics. -/
abbrev OptionFns := CmdOption → Except Fault CmdOption

/-- What the package takes from its host. -/
structure World where
  /-- The result of `os.Environ()`. -/
  environ : List String
  /-- The function `os.Getenv`; the empty string for an unset variable. -/
  getenv : String → String
  /-- The first result of `filepath.Abs` (its error is dropped by the caller). -/
  abs : String → String
  /-- The function `exec.LookPath`. -/
  lookPath : String → String × error
  /-- The outcome of `(*exec.Cmd).Run` on a descriptor. -/
  run : Cmd → error

/-! ## Library routines -/

/-- The function `filepath.Base` on a Unix host. -/
def Base (path : String) : String :=
  if path = "" then "."
  else
    let stripped := (path.data.reverse.dropWhile (fun ch => ch = '/')).reverse
    let last := (stripped.reverse.takeWhile (fun ch => ch ≠ '/')).reverse
    if last = [] then "/" else String.mk last

/-- The function `exec.Command` called with a name and no further arguments. -/
def Command (w : World) (name : String) : Cmd :=
  let cmd : Cmd :=
    { Path := name, Args := [name], Env := [], Dir := "", Stdout := none, Stderr := none,
      Err := none }
  if Base name = name then
    let found := w.lookPath name
    let cmd := if found.1 ≠ "" then { cmd with Path := found.1 } else cmd
    if found.2 ≠ none then { cmd with Err := found.2 } else cmd
  else cmd

/-- The function `strings.Join`. -/
def Join (elems : List String) (sep : String) : String :=
  sep.intercalate elems

/-- The method `(*exec.Cmd).String`: the requested arguments when the lookup
failed, else the resolved path followed by `Args[1:]`; slicing an empty `Args`
from 1 panics. -/
def Cmd.String (c : Cmd) : Except Fault String :=
  if c.Err ≠ none then .ok (Join c.Args " ")
  else
    match c.Args with
    | [] => .error .sliceBounds
    | _ :: rest => .ok (rest.foldl (fun b a => b ++ " " ++ a) c.Path)

/-- The key of an environment entry as `dedupEnv` of `os/exec` cuts it: the
text before the first `=`, where a leading `=` belongs to the key; `none` for
an entry without `=`. -/
def envKey (kv : String) : Option String :=
  match kv.data with
  | '=' :: rest =>
    let name := rest.takeWhile (fun ch => ch ≠ '=')
    if name.length < rest.length then some (String.mk ('=' :: name)) else some ""
  | chars =>
    let name := chars.takeWhile (fun ch => ch ≠ '=')
    if name.length < chars.length then some (String.mk name) else none

/-- The loop of `dedupEnv` of `os/exec` on a Unix host, over the list from its
last entry to its first, with the keys seen so far: an entry holding a NUL
character is dropped, an entry without `=` is kept unless empty, and of the
entries of one key only the first met is kept. -/
def dedupFromEnd : List String → List String → List String
  | [], _ => []
  | kv :: rest, saw =>
    if kv.data.contains (Char.ofNat 0) then dedupFromEnd rest saw
    else
      match envKey kv with
      | none => if kv ≠ "" then kv :: dedupFromEnd rest saw else dedupFromEnd rest saw
      | some k => if k ∈ saw then dedupFromEnd rest saw else kv :: dedupFromEnd rest (k :: saw)

/-- The function `dedupEnv` of `os/exec`: duplicates removed in favour of later
values, the order kept. -/
def dedupEnv (env : List String) : List String :=
  (dedupFromEnd env.reverse []).reverse

/-- The method `(*exec.Cmd).environ` on a Unix host for a descriptor whose `Env`
is not nil, as `Run` leaves it: the environment the child is started with. -/
def environ (c : Cmd) : List String :=
  dedupEnv c.Env

/-- The helper `isShellSpecialVar` of package `os`. -/
def isShellSpecialVar (c : Char) : Bool :=
  c ∈ ['*', '#', '$', '@', '!', '?', '-', '0', '1', '2', '3', '4', '5', '6', '7', '8', '9']

/-- The helper `isAlphaNum` of package `os`. -/
def isAlphaNum (c : Char) : Bool :=
  c = '_' || ('0' ≤ c && c ≤ '9') || ('a' ≤ c && c ≤ 'z') || ('A' ≤ c && c ≤ 'Z')

/-- The helper `getShellName` of package `os`, on the text after a `$`
(never empty): the name and the number of characters consumed. -/
def getShellName (s : List Char) : List Char × Nat :=
  match s with
  | [] => ([], 0)
  | c0 :: rest =>
    if c0 = '{' then
      if 2 < s.length ∧ isShellSpecialVar (s.getD 1 ' ') = true ∧ s.getD 2 ' ' = '}' then
        ([s.getD 1 ' '], 3)
      else
        let name := rest.takeWhile (fun ch => ch ≠ '}')
        if name.length < rest.length then
          if name = [] then ([], 2) else (name, name.length + 2)
        else ([], 1)
    else if isShellSpecialVar c0 then ([c0], 1)
    else
      let name := s.takeWhile isAlphaNum
      (name, name.length)

/-- The loop of `os.Expand` from position `j`, with `fuel` bounding the number
of iterations. -/
def expandFrom (mapping : String → String) : Nat → List Char → List Char
  | 0, s => s
  | _, [] => []
  | fuel + 1, c :: rest =>
    if c = '$' ∧ rest ≠ [] then
      let nw := getShellName rest
      let piece :=
        if nw.1 = [] ∧ 0 < nw.2 then []
        else if nw.1 = [] then ['$']
        else (mapping (String.mk nw.1)).data
      piece ++ expandFrom mapping fuel (rest.drop nw.2)
    else c :: expandFrom mapping fuel rest

/-- The function `os.Expand`. -/
def Expand (s : String) (mapping : String → String) : String :=
  String.mk (expandFrom mapping s.length s.data)

/-- The function `os.ExpandEnv`. -/
def ExpandEnv (w : World) (s : String) : String :=
  Expand s w.getenv

/-! ## The option constructors, `executils.go` lines 21-71 -/

/-- `executils.go` lines 21-25. -/
def WithVerbose : OptionFns := fun c =>
  .ok { c with Verbose := true }

/-- `executils.go` lines 27-31. -/
def WithPath (path : String) : OptionFns := fun c =>
  .ok { c with Cmd := { c.Cmd with Path := path } }

/-- `executils.go` lines 33-38. -/
def WithDir (w : World) (dir : String) : OptionFns := fun c =>
  let filePath := w.abs dir
  .ok { c with Cmd := { c.Cmd with Dir := filePath } }

/-- `executils.go` lines 40-44. -/
def WithStdOut (stdOut : Option Writer) : OptionFns := fun c =>
  .ok { c with Cmd := { c.Cmd with Stdout := stdOut } }

/-- `executils.go` lines 46-50. -/
def WithStdErr (stdErr : Option Writer) : OptionFns := fun c =>
  .ok { c with Cmd := { c.Cmd with Stderr := stdErr } }

/-- `executils.go` lines 52-57. -/
def WithStdOutOrErr (stdOutOrErr : Option Writer) : OptionFns := fun c =>
  .ok { c with Cmd := { c.Cmd with Stderr := stdOutOrErr, Stdout := stdOutOrErr } }

/-- `executils.go` lines 59-65. -/
def WithEnv (lines : List String) : OptionFns := fun c =>
  .ok { c with Cmd := { c.Cmd with Env := lines.foldl (fun env line => env ++ [line]) c.Cmd.Env } }

/-- `executils.go` lines 67-71. -/
def WithArgs (args : List String) : OptionFns := fun c =>
  match c.Cmd.String with
  | .error f => .error f
  | .ok display => .ok { c with Cmd := { c.Cmd with Args := [display] ++ args } }

/-- The calls a caller can write with the eight constructors. -/
inductive Mutator where
  | verbose
  | path (path : String)
  | dir (dir : String)
  | stdOut (stdOut : Option Writer)
  | stdErr (stdErr : Option Writer)
  | stdOutOrErr (stdOutOrErr : Option Writer)
  | env (lines : List String)
  | args (args : List String)
deriving DecidableEq, Repr

/-- The closure a constructor call returns. -/
def Mutator.fn (w : World) : Mutator → OptionFns
  | .verbose => WithVerbose
  | .path p => WithPath p
  | .dir d => WithDir w d
  | .stdOut s => WithStdOut s
  | .stdErr s => WithStdErr s
  | .stdOutOrErr s => WithStdOutOrErr s
  | .env lines => WithEnv lines
  | .args xs => WithArgs xs

/-! ## `Run`, `executils.go` lines 73-100 -/

/-- What `Run` does to the outside, in order. -/
inductive Event where
  | write (sink : Writer) (text : String)
  | exec (c : Cmd)
deriving DecidableEq, Repr

/-- The effects of a call of `Run` and how it ended: a panic, or the returned
`error`. -/
structure RunResult where
  trace : List Event
  outcome : Except Fault error
deriving Repr

/-- The loop of `executils.go` lines 81-83. -/
def applyOptions : List OptionFns → CmdOption → Except Fault CmdOption
  | [], c => .ok c
  | opt :: rest, c =>
    match opt c with
    | .error f => .error f
    | .ok c1 => applyOptions rest c1

/-- The call `fmt.Fprintf(c.Stdout, "Exec: %s\n", ...)` of line 92: calling
`Write` on a nil `io.Writer` panics. -/
def Fprintf (sink : Option Writer) (text : String) : Except Fault (List Event) :=
  match sink with
  | none => .error .nilDereference
  | some s => .ok [Event.write s text]

/-- `executils.go` lines 95-99, given the result of `c.Run()`: nil is returned
as it is, an error is wrapped with its exit status, and a panic of
`ExitStatus` is a panic of `Run`. -/
def report (err : error) : Except Fault error :=
  match err with
  | some e =>
    match ExitStatus (some e) with
    | .error f => .error f
    | .ok code => .ok (WithMessagef (some e) code)
  | none => .ok none

/-- `executils.go` lines 73-100. The expanded command string of line 85 is
stored in the parameter `cmd`, which no later line reads. -/
def Run (w : World) (cmd : String) (options : List OptionFns) : RunResult :=
  let c := { (Command w cmd) with Env := w.environ }
  let cmdOptions : CmdOption := { Cmd := c, Verbose := false }
  match applyOptions options cmdOptions with
  | .error f => { trace := [], outcome := .error f }
  | .ok cmdOptions =>
    let _cmd := ExpandEnv w cmd
    let c := { cmdOptions.Cmd with Args := cmdOptions.Cmd.Args.map (ExpandEnv w) }
    match (if cmdOptions.Verbose then Fprintf c.Stdout ("Exec: " ++ Join c.Args " " ++ "\n")
           else .ok []) with
    | .error f => { trace := [], outcome := .error f }
    | .ok printed =>
      { trace := printed ++ [Event.exec c], outcome := report (w.run c) }

/-- The descriptor handed to the execution step, if `Run` got that far. -/
def RunResult.executed (r : RunResult) : Option Cmd :=
  r.trace.findSome? (fun ev => match ev with | .exec c => some c | .write _ _ => none)

/-- The texts `Run` itself wrote to the writer `sink`, in order. -/
def RunResult.written (r : RunResult) (sink : Writer) : List String :=
  r.trace.filterMap
    (fun ev => match ev with | .write s t => if s = sink then some t else none | .exec _ => none)

/-! ## A sample host -/

/-- The error of a failed lookup or spawn: neither an accessor nor an exit error. -/
def notFound (text : String) : GoError :=
  .base { text := text, exitStatusMethod := none, exitError := none }

/-- An error value with accessor result `n` that the second assertion would
also accept, with system status `m`. -/
def accessorOver (n m : Int) : GoError :=
  .base { text := "exit status " ++ fmtInt n, exitStatusMethod := some n,
          exitError := some (.status (some m)) }

/-- A host with `HOME=/users/test`, current directory `/work`, `echo` and `sh`
on the search path; `sh` exits with status 3, any other found executable with
status 0, and a missing executable is a lookup or spawn error. -/
def sampleWorld : World where
  environ := ["HOME=/users/test", "PATH=/bin"]
  getenv := fun k => if k = "HOME" then "/users/test" else if k = "PATH" then "/bin" else ""
  abs := fun p => if p.data.head? = some '/' then p else "/work/" ++ p
  lookPath := fun name =>
    if name = "echo" then ("/bin/echo", none)
    else if name = "sh" then ("/bin/sh", none)
    else ("", some (notFound "executable file not found in $PATH"))
  run := fun c =>
    match c.Err with
    | some e => some e
    | none =>
      if c.Path = "/bin/sh" then some (exitedWith 3)
      else if c.Path = "/bin/echo" then none
      else some (notFound "no such file or directory")

/-- The value `&exec.ExitError{}`: an exit error without a process state. -/
def statelessExit : GoError :=
  .base { text := "<nil>", exitStatusMethod := none, exitError := some .noState }

/-- The descriptor of `sh` on the sample host after the given argument list
was set. -/
def shWith (args : List String) : Cmd :=
  { Path := "/bin/sh", Args := args, Env := ["HOME=/users/test", "PATH=/bin"], Dir := "",
    Stdout := none, Stderr := none, Err := none }

/-! ## Vocabulary of the properties -/

/-- The lines of the `WithEnv` calls of a sequence, in the order supplied. -/
def envLines : List Mutator → List String
  | [] => []
  | .env lines :: rest => lines ++ envLines rest
  | _ :: rest => envLines rest

/-- Whether a sequence holds a `WithVerbose` call. -/
def verboseIn : List Mutator → Bool
  | [] => false
  | .verbose :: _ => true
  | _ :: rest => verboseIn rest

/-- The standard-output writer in effect after a sequence, starting from `s`:
the argument of the last `WithStdOut` or `WithStdOutOrErr` call, else `s`. -/
def sinkAfter : List Mutator → Option Writer → Option Writer
  | [], s => s
  | .stdOut x :: rest, _ => sinkAfter rest x
  | .stdOutOrErr x :: rest, _ => sinkAfter rest x
  | _ :: rest, s => sinkAfter rest s

/-- The fields of the descriptor that the option closures assign. -/
inductive Field where
  | verbose
  | path
  | dir
  | stdout
  | stderr
  | env
  | args
deriving DecidableEq, Repr

/-- The fields assigned by the closure of each constructor, read off lines
21-71. -/
def Mutator.writes : Mutator → List Field
  | .verbose => [.verbose]
  | .path _ => [.path]
  | .dir _ => [.dir]
  | .stdOut _ => [.stdout]
  | .stdErr _ => [.stderr]
  | .stdOutOrErr _ => [.stderr, .stdout]
  | .env _ => [.env]
  | .args _ => [.args]

/-- Two descriptors hold the same value in a field. -/
def Field.agree (f : Field) (a b : CmdOption) : Prop :=
  match f with
  | .verbose => a.Verbose = b.Verbose
  | .path => a.Cmd.Path = b.Cmd.Path
  | .dir => a.Cmd.Dir = b.Cmd.Dir
  | .stdout => a.Cmd.Stdout = b.Cmd.Stdout
  | .stderr => a.Cmd.Stderr = b.Cmd.Stderr
  | .env => a.Cmd.Env = b.Cmd.Env
  | .args => a.Cmd.Args = b.Cmd.Args

/-- The descriptor `Run` starts from, lines 74-79. -/
def initial (w : World) (cmd : String) : CmdOption :=
  { Cmd := { (Command w cmd) with Env := w.environ }, Verbose := false }

end Executils

namespace Executils

/-! ## The expansion loop terminates within its bound -/

/-- Any bound of at least the length of the text gives the same expansion:
each iteration of the loop of `os.Expand` consumes a character, so the bound
`s.length` used by `Expand` is never exhausted. -/
theorem expandFrom_fuel (mapping : String → String) (fuel1 fuel2 : Nat) (s : List Char)
    (h1 : s.length ≤ fuel1) (h2 : s.length ≤ fuel2) :
    expandFrom mapping fuel1 s = expandFrom mapping fuel2 s := by
  induction fuel1 generalizing fuel2 s with
  | zero =>
    have hs : s = [] := List.length_eq_zero.mp (Nat.le_zero.mp h1)
    subst hs
    cases fuel2 <;> rfl
  | succ f1 ih =>
    cases s with
    | nil => cases fuel2 <;> rfl
    | cons c rest =>
      cases fuel2 with
      | zero => simp at h2
      | succ f2 =>
        have hr1 : rest.length ≤ f1 := by simpa using h1
        have hr2 : rest.length ≤ f2 := by simpa using h2
        simp only [expandFrom]
        split
        · have hd : (rest.drop (getShellName rest).2).length ≤ rest.length := by
            simp [List.length_drop]
          rw [ih f2 _ (le_trans hd hr1) (le_trans hd hr2)]
        · rw [ih f2 rest hr1 hr2]

/-! ## Shared facts about the option closures -/

theorem foldl_append_each (lines env : List String) :
    lines.foldl (fun env line => env ++ [line]) env = env ++ lines := by
  induction lines generalizing env with
  | nil => simp
  | cons l rest ih => simp [List.foldl, ih]

theorem WithEnv_ok (lines : List String) (o : CmdOption) :
    WithEnv lines o = .ok { o with Cmd := { o.Cmd with Env := o.Cmd.Env ++ lines } } := by
  simp [WithEnv, foldl_append_each]

theorem String_ok_of_args (c : Cmd) (h : c.Args ≠ []) : ∃ d, c.String = .ok d := by
  unfold Cmd.String
  split
  · exact ⟨_, rfl⟩
  · cases hargs : c.Args with
    | nil => exact absurd hargs h
    | cons a rest => exact ⟨_, rfl⟩

theorem initial_args (w : World) (cmd : String) : (initial w cmd).Cmd.Args = [cmd] := by
  simp only [initial, Command]
  split_ifs <;> rfl

/-- One closure, from a descriptor with a non-empty argument list: it returns,
keeps the list non-empty, appends exactly its `WithEnv` lines, and sets the
flag and the writer as `verboseIn` and `sinkAfter` say. -/
theorem fn_step (w : World) (m : Mutator) (o : CmdOption) (h : o.Cmd.Args ≠ []) :
    ∃ o1, m.fn w o = .ok o1 ∧ o1.Cmd.Args ≠ [] ∧ o1.Cmd.Env = o.Cmd.Env ++ envLines [m] ∧
      o1.Verbose = (o.Verbose || verboseIn [m]) ∧
      o1.Cmd.Stdout = sinkAfter [m] o.Cmd.Stdout := by
  cases m with
  | verbose => exact ⟨_, rfl, h, by simp [envLines], by simp [verboseIn], rfl⟩
  | path p => exact ⟨_, rfl, h, by simp [envLines], by simp [verboseIn], rfl⟩
  | dir d => exact ⟨_, rfl, h, by simp [envLines], by simp [verboseIn], rfl⟩
  | stdOut x => exact ⟨_, rfl, h, by simp [envLines], by simp [verboseIn], rfl⟩
  | stdErr x => exact ⟨_, rfl, h, by simp [envLines], by simp [verboseIn], rfl⟩
  | stdOutOrErr x => exact ⟨_, rfl, h, by simp [envLines], by simp [verboseIn], rfl⟩
  | env lines =>
    exact ⟨_, WithEnv_ok lines o, h, by simp [envLines], by simp [verboseIn], rfl⟩
  | args xs =>
    obtain ⟨d, hd⟩ := String_ok_of_args o.Cmd h
    refine ⟨{ o with Cmd := { o.Cmd with Args := [d] ++ xs } }, ?_, by simp,
      by simp [envLines], by simp [verboseIn], rfl⟩
    simp [Mutator.fn, WithArgs, hd]

theorem envLines_cons (m : Mutator) (ms : List Mutator) :
    envLines (m :: ms) = envLines [m] ++ envLines ms := by
  cases m <;> simp [envLines]

theorem verboseIn_cons (m : Mutator) (ms : List Mutator) :
    verboseIn (m :: ms) = (verboseIn [m] || verboseIn ms) := by
  cases m <;> simp [verboseIn]

theorem sinkAfter_cons (m : Mutator) (ms : List Mutator) (s : Option Writer) :
    sinkAfter (m :: ms) s = sinkAfter ms (sinkAfter [m] s) := by
  cases m <;> simp [sinkAfter]

theorem verboseIn_of_mem (ms : List Mutator) (h : Mutator.verbose ∈ ms) :
    verboseIn ms = true := by
  induction ms with
  | nil => cases h
  | cons m rest ih =>
    rw [verboseIn_cons]
    rcases List.mem_cons.mp h with h1 | h1
    · subst h1; simp [verboseIn]
    · simp [ih h1]

/-- The loop over a sequence of constructor calls returns; the environment
list it leaves is the one it found followed by all `WithEnv` lines, the flag is
set when it was or when the sequence holds `WithVerbose`, and the writer is the
last one set. -/
theorem applyOptions_mutators (w : World) (ms : List Mutator) (o : CmdOption)
    (h : o.Cmd.Args ≠ []) :
    ∃ o1, applyOptions (ms.map (Mutator.fn w)) o = .ok o1 ∧ o1.Cmd.Args ≠ [] ∧
      o1.Cmd.Env = o.Cmd.Env ++ envLines ms ∧
      o1.Verbose = (o.Verbose || verboseIn ms) ∧
      o1.Cmd.Stdout = sinkAfter ms o.Cmd.Stdout := by
  induction ms generalizing o with
  | nil => exact ⟨o, rfl, h, by simp [envLines], by simp [verboseIn], rfl⟩
  | cons m rest ih =>
    obtain ⟨o1, h1, hargs, henv, hv, hs⟩ := fn_step w m o h
    obtain ⟨o2, h2, hargs2, henv2, hv2, hs2⟩ := ih o1 hargs
    refine ⟨o2, ?_, hargs2, ?_, ?_, ?_⟩
    · simp [applyOptions, h1, h2]
    · rw [henv2, henv, List.append_assoc, ← envLines_cons]
    · rw [hv2, hv, Bool.or_assoc, ← verboseIn_cons]
    · rw [hs2, hs, ← sinkAfter_cons]

/-- The option loop of `Run` on a sequence of constructor calls. -/
theorem applyOptions_initial (w : World) (cmd : String) (ms : List Mutator) :
    ∃ o1, applyOptions (ms.map (Mutator.fn w)) (initial w cmd) = .ok o1 ∧
      o1.Cmd.Env = w.environ ++ envLines ms ∧
      o1.Verbose = verboseIn ms ∧
      o1.Cmd.Stdout = sinkAfter ms none := by
  have hargs : (initial w cmd).Cmd.Args ≠ [] := by rw [initial_args]; simp
  obtain ⟨o1, h1, _, henv, hv, hs⟩ := applyOptions_mutators w ms (initial w cmd) hargs
  refine ⟨o1, h1, henv, ?_, ?_⟩
  · rw [hv]; simp [initial]
  · rw [hs]
    have : (initial w cmd).Cmd.Stdout = none := by
      simp only [initial, Command]
      split_ifs <;> rfl
    rw [this]

/-- `Run` after the option loop returned `o`. -/
theorem Run_of_options (w : World) (cmd : String) (options : List OptionFns) (o : CmdOption)
    (h : applyOptions options (initial w cmd) = .ok o) :
    Run w cmd options =
      (let c := { o.Cmd with Args := o.Cmd.Args.map (ExpandEnv w) }
       match (if o.Verbose then Fprintf c.Stdout ("Exec: " ++ Join c.Args " " ++ "\n")
              else .ok []) with
       | .error f => { trace := [], outcome := .error f }
       | .ok printed =>
         { trace := printed ++ [Event.exec c],
           outcome := report (w.run c) }) := by
  unfold initial at h
  simp only [Run, h]

theorem Run_of_fault (w : World) (cmd : String) (options : List OptionFns) (f : Fault)
    (h : applyOptions options (initial w cmd) = .error f) :
    Run w cmd options = { trace := [], outcome := .error f } := by
  unfold initial at h
  simp only [Run, h]

/-- `Run` after the option loop returned `o` with the flag unset. -/
theorem Run_quiet (w : World) (cmd : String) (options : List OptionFns) (o : CmdOption)
    (h : applyOptions options (initial w cmd) = .ok o) (hv : o.Verbose = false) :
    Run w cmd options =
      { trace := [Event.exec { o.Cmd with Args := o.Cmd.Args.map (ExpandEnv w) }],
        outcome := report (w.run { o.Cmd with Args := o.Cmd.Args.map (ExpandEnv w) }) } := by
  rw [Run_of_options w cmd options o h]
  simp [hv]

/-- `Run` after the option loop returned `o` with the flag set and a writer. -/
theorem Run_verbose_sink (w : World) (cmd : String) (options : List OptionFns) (o : CmdOption)
    (s : Writer)
    (h : applyOptions options (initial w cmd) = .ok o) (hv : o.Verbose = true)
    (hs : o.Cmd.Stdout = some s) :
    Run w cmd options =
      { trace := [Event.write s
                    ("Exec: " ++ Join (o.Cmd.Args.map (ExpandEnv w)) " " ++ "\n"),
                  Event.exec { o.Cmd with Args := o.Cmd.Args.map (ExpandEnv w) }],
        outcome := report (w.run { o.Cmd with Args := o.Cmd.Args.map (ExpandEnv w) }) } := by
  rw [Run_of_options w cmd options o h]
  obtain ⟨⟨p, a, e, d, so, se, er⟩, v⟩ := o
  simp only at hv hs
  subst hv hs
  simp [Fprintf]

/-- `Run` after the option loop returned `o` with the flag set and no writer. -/
theorem Run_verbose_nil (w : World) (cmd : String) (options : List OptionFns) (o : CmdOption)
    (h : applyOptions options (initial w cmd) = .ok o) (hv : o.Verbose = true)
    (hs : o.Cmd.Stdout = none) :
    Run w cmd options = { trace := [], outcome := .error .nilDereference } := by
  rw [Run_of_options w cmd options o h]
  simp [hv, hs, Fprintf]

/-- What a call of `Run` can look like: a panic before anything happened, or
the optional line, then the execution step, then the wrapped outcome. -/
theorem Run_shape (w : World) (cmd : String) (options : List OptionFns) :
    (∃ f, Run w cmd options = { trace := [], outcome := .error f }) ∨
    (∃ printed c, (printed = [] ∨ ∃ s, c.Stdout = some s ∧
          printed = [Event.write s ("Exec: " ++ Join c.Args " " ++ "\n")]) ∧
        Run w cmd options =
          { trace := printed ++ [Event.exec c],
            outcome := report (w.run c) }) := by
  cases h : applyOptions options (initial w cmd) with
  | error f => exact Or.inl ⟨f, Run_of_fault w cmd options f h⟩
  | ok o =>
    cases hv : o.Verbose with
    | false => exact Or.inr ⟨[], _, Or.inl rfl, Run_quiet w cmd options o h hv⟩
    | true =>
      cases hs : o.Cmd.Stdout with
      | none => exact Or.inl ⟨_, Run_verbose_nil w cmd options o h hv hs⟩
      | some s =>
        exact Or.inr ⟨_, { o.Cmd with Args := o.Cmd.Args.map (ExpandEnv w) },
          Or.inr ⟨s, hs, rfl⟩, Run_verbose_sink w cmd options o s h hv hs⟩

/-! ## `ExitStatus` -/

/-- C3: a non-nil error whose dynamic type has the accessor `ExitStatus() int`
returning `N` has exit status `N`, whatever the other assertion would say. -/
theorem ExitStatus_accessor (e : GoError) (N : Int) (h : e.assertExitStatus = some N) :
    ExitStatus (some e) = .ok N := by
  simp [ExitStatus, h]

/-- The accessor wins over a process-exit status: an error with accessor value
127 that is also seen as an exit error of status 2 has exit status 127. -/
theorem ExitStatus_accessor_witness :
    (accessorOver 127 2).assertExitStatus = some 127 ∧
    (accessorOver 127 2).assertExitError = some (.status (some 2)) ∧
    ExitStatus (some (accessorOver 127 2)) = .ok 127 :=
  ⟨rfl, rfl, ExitStatus_accessor _ 127 rfl⟩

/-- Where `ExitStatus` returns the fallback: 0 for nil, and 1 for a non-nil
error without accessor that is not an exit error, or is one whose `Sys()`
returns a status without accessor. -/
theorem ExitStatus_fallback :
    ExitStatus none = .ok 0 ∧
    ∀ e : GoError, e.assertExitStatus = none →
      (e.assertExitError = none ∨ e.assertExitError = some (.status none)) →
      ExitStatus (some e) = .ok 1 := by
  refine ⟨rfl, ?_⟩
  intro e h1 h2
  unfold ExitStatus
  rcases h2 with h2 | h2 <;> simp [h1, h2]

/-- `ExitStatus` panics exactly on an error without accessor that is an exit
error without a process state; on every other error it returns. -/
theorem ExitStatus_panics_iff (e : GoError) :
    (∃ f, ExitStatus (some e) = .error f) ↔
      (e.assertExitStatus = none ∧ e.assertExitError = some .noState) := by
  cases h1 : e.assertExitStatus with
  | some n => simp [ExitStatus, h1]
  | none =>
    rcases h2 : e.assertExitError with _ | (_ | (_ | n)) <;> simp [ExitStatus, h1, h2]

/-- C4 at `ExitStatus(&exec.ExitError{})`: the error is non-nil, has no
accessor and is an exit error with no system status object, so the claim and
the docstring of lines 106-108 promise an integer (1); the call `e.Sys()` of
line 117 dereferences the nil process state and `ExitStatus` panics. -/
theorem ExitStatus_stateless_exit :
    statelessExit.assertExitStatus = none ∧
    (∀ n, statelessExit.assertExitError ≠ some (.status (some n))) ∧
    ExitStatus (some statelessExit) = .error .nilDereference ∧
    ExitStatus (some statelessExit) ≠ .ok 1 :=
  ⟨rfl, fun n h => (by cases h), rfl, fun h => (by cases h)⟩

/-! ## The outcome of `Run` -/

theorem executed_of_shape (printed : List Event) (c : Cmd) (out : Except Fault error)
    (hp : printed = [] ∨ ∃ s, c.Stdout = some s ∧
      printed = [Event.write s ("Exec: " ++ Join c.Args " " ++ "\n")]) :
    RunResult.executed { trace := printed ++ [Event.exec c], outcome := out } = some c := by
  rcases hp with hp | ⟨s, _, hp⟩ <;> subst hp <;> simp [RunResult.executed]

/-- A run that reached the execution step with descriptor `c` ended as lines
95-99 make of the outcome of that step. -/
theorem outcome_of_executed (w : World) (cmd : String) (options : List OptionFns) (c : Cmd)
    (h : (Run w cmd options).executed = some c) :
    (Run w cmd options).outcome = report (w.run c) := by
  rcases Run_shape w cmd options with ⟨f, hf⟩ | ⟨printed, c1, hp, hr⟩
  · rw [hf] at h; simp [RunResult.executed] at h
  · rw [hr] at h ⊢
    rw [executed_of_shape printed c1 _ hp] at h
    cases h
    rfl

/-- A run that returned reached the execution step. -/
theorem executed_of_returned (w : World) (cmd : String) (options : List OptionFns) (r : error)
    (h : (Run w cmd options).outcome = .ok r) :
    ∃ c, (Run w cmd options).executed = some c := by
  rcases Run_shape w cmd options with ⟨f, hf⟩ | ⟨printed, c1, hp, hr⟩
  · rw [hf] at h; cases h
  · exact ⟨c1, by rw [hr]; exact executed_of_shape printed c1 _ hp⟩

theorem report_nil_iff (err : error) : report err = .ok none ↔ err = none := by
  cases err with
  | none => simp [report]
  | some e =>
    cases h : ExitStatus (some e) <;> simp [report, h, WithMessagef]

theorem report_of_status (e : GoError) (N : Int) (h : ExitStatus (some e) = .ok N) :
    report (some e) = .ok (some (.withMessage e ("Exit code " ++ fmtInt N))) := by
  simp [report, h, WithMessagef]

theorem report_of_panic (e : GoError) (f : Fault) (h : ExitStatus (some e) = .error f) :
    report (some e) = .error f := by
  simp [report, h]

/-- C2: `Run` returns nil exactly when the execution step ran and reported no
error; when it reported `e` and `ExitStatus e` is `N`, `Run` returns one error
whose cause is `e` and whose message is `Exit code N: ` followed by the message
of `e`, with `N` in decimal; every `e` other than an exit error without a
process state has such an `N`, and for that one `Run` panics as `ExitStatus`
does. -/
theorem Run_wraps_failure (w : World) (cmd : String) (options : List OptionFns) :
    ((Run w cmd options).outcome = .ok none ↔
      ∃ c, (Run w cmd options).executed = some c ∧ w.run c = none) ∧
    (∀ c e N, (Run w cmd options).executed = some c → w.run c = some e →
      ExitStatus (some e) = .ok N →
      ∃ r, (Run w cmd options).outcome = .ok (some r) ∧ r.Cause = some e ∧
        r.Error = "Exit code " ++ fmtInt N ++ ": " ++ e.Error ∧
        ("Exit code " ++ fmtInt N).data <:+: r.Error.data) ∧
    (∀ e, ¬ (e.assertExitStatus = none ∧ e.assertExitError = some .noState) →
      ∃ N, ExitStatus (some e) = .ok N) ∧
    (∀ c e f, (Run w cmd options).executed = some c → w.run c = some e →
      ExitStatus (some e) = .error f → (Run w cmd options).outcome = .error f) := by
  refine ⟨⟨?_, ?_⟩, ?_, ?_, ?_⟩
  · intro h
    obtain ⟨c, hc⟩ := executed_of_returned w cmd options none h
    rw [outcome_of_executed w cmd options c hc] at h
    exact ⟨c, hc, (report_nil_iff _).mp h⟩
  · rintro ⟨c, hc, hr⟩
    rw [outcome_of_executed w cmd options c hc, hr]
    rfl
  · intro c e N hc hr hN
    refine ⟨.withMessage e ("Exit code " ++ fmtInt N), ?_, rfl, rfl, ?_⟩
    · rw [outcome_of_executed w cmd options c hc, hr, report_of_status e N hN]
    · refine ⟨[], (": " ++ e.Error).data, ?_⟩
      simp [GoError.Error, String.data_append]
  · intro e he
    cases h : ExitStatus (some e) with
    | ok N => exact ⟨N, rfl⟩
    | error f => exact absurd ((ExitStatus_panics_iff e).mp ⟨f, h⟩) he
  · intro c e f hc hr hf
    rw [outcome_of_executed w cmd options c hc, hr, report_of_panic e f hf]

/-- A run of `sh` on the sample host: the step reports exit status 3 and `Run`
returns the wrapper with message `Exit code 3: exit status 3`. -/
theorem Run_wraps_failure_witness :
    (Run sampleWorld "sh" []).executed = some (shWith ["sh"]) ∧
    sampleWorld.run (shWith ["sh"]) = some (exitedWith 3) ∧
    ExitStatus (some (exitedWith 3)) = .ok 3 ∧
    ∃ r, (Run sampleWorld "sh" []).outcome = .ok (some r) ∧ r.Cause = some (exitedWith 3) ∧
      r.Error = "Exit code " ++ fmtInt 3 ++ ": " ++ (exitedWith 3).Error ∧
      ("Exit code " ++ fmtInt 3).data <:+: r.Error.data :=
  ⟨by decide, by decide, by rfl,
   (Run_wraps_failure sampleWorld "sh" []).2.1 (shWith ["sh"]) (exitedWith 3) 3
     (by decide) (by decide) (by rfl)⟩

/-- C1, as the code has it: when the execution step reports a process-exit
error `e` whose system status is `N`, `Run` returns a wrapper whose cause is
`e`, with `ExitStatus` of the cause equal to `N` and the message starting
`Exit code N`; the wrapper itself has neither an accessor nor the exit-error
type, so `ExitStatus` of the returned error is 1. -/
theorem Run_exit_status_in_cause (w : World) (cmd : String) (options : List OptionFns)
    (c : Cmd) (e : GoError) (N : Int)
    (hc : (Run w cmd options).executed = some c) (hr : w.run c = some e)
    (h1 : e.assertExitStatus = none) (h2 : e.assertExitError = some (.status (some N))) :
    ∃ r, (Run w cmd options).outcome = .ok (some r) ∧ r.Cause = some e ∧
      ExitStatus r.Cause = .ok N ∧
      r.Error = "Exit code " ++ fmtInt N ++ ": " ++ e.Error ∧
      ExitStatus (some r) = .ok 1 := by
  have hN : ExitStatus (some e) = .ok N := by simp [ExitStatus, h1, h2]
  refine ⟨.withMessage e ("Exit code " ++ fmtInt N), ?_, rfl, hN, rfl, rfl⟩
  rw [outcome_of_executed w cmd options c hc, hr, report_of_status e N hN]

/-- A run of `sh -c "exit 3"` on the sample host. -/
theorem Run_exit_status_in_cause_witness :
    (Run sampleWorld "sh" [WithArgs ["-c", "exit 3"]]).executed =
      some (shWith ["/bin/sh", "-c", "exit 3"]) ∧
    sampleWorld.run (shWith ["/bin/sh", "-c", "exit 3"]) = some (exitedWith 3) ∧
    (exitedWith 3).assertExitStatus = none ∧
    (exitedWith 3).assertExitError = some (.status (some 3)) ∧
    ∃ r, (Run sampleWorld "sh" [WithArgs ["-c", "exit 3"]]).outcome = .ok (some r) ∧
      r.Cause = some (exitedWith 3) ∧ ExitStatus r.Cause = .ok 3 ∧
      r.Error = "Exit code " ++ fmtInt 3 ++ ": " ++ (exitedWith 3).Error ∧
      ExitStatus (some r) = .ok 1 :=
  ⟨by decide, by decide, by decide, by decide,
   Run_exit_status_in_cause sampleWorld "sh" [WithArgs ["-c", "exit 3"]]
     (shWith ["/bin/sh", "-c", "exit 3"]) (exitedWith 3) 3
     (by decide) (by decide) (by decide) (by decide)⟩

/-- C1 fails as stated: on the sample host `sh` runs and exits with status 3,
and `ExitStatus` of the error `Run` returns is 1, not 3. -/
theorem Run_exit_status_counterexample :
    (Run sampleWorld "sh" []).executed = some (shWith ["sh"]) ∧
    sampleWorld.run (shWith ["sh"]) = some (exitedWith 3) ∧
    (Run sampleWorld "sh" []).outcome =
      .ok (some (.withMessage (exitedWith 3) "Exit code 3")) ∧
    ExitStatus (some (.withMessage (exitedWith 3) "Exit code 3")) = .ok 1 ∧
    ExitStatus (some (.withMessage (exitedWith 3) "Exit code 3")) ≠ .ok 3 :=
  ⟨by decide, by decide, by rfl, by rfl, by intro h; cases h⟩

/-! ## What `Run` executes -/

/-- The descriptor handed to the execution step is the one the option loop
left, with `ExpandEnv` applied to each element of `Args` and to nothing else. -/
theorem executed_of_options (w : World) (cmd : String) (options : List OptionFns)
    (o : CmdOption) (c : Cmd)
    (h : applyOptions options (initial w cmd) = .ok o)
    (hc : (Run w cmd options).executed = some c) :
    c = { o.Cmd with Args := o.Cmd.Args.map (ExpandEnv w) } := by
  cases hv : o.Verbose with
  | false =>
    rw [Run_quiet w cmd options o h hv] at hc
    simpa [RunResult.executed] using hc.symm
  | true =>
    cases hs : o.Cmd.Stdout with
    | none =>
      rw [Run_verbose_nil w cmd options o h hv hs] at hc
      simp [RunResult.executed] at hc
    | some s =>
      rw [Run_verbose_sink w cmd options o s h hv hs] at hc
      simpa [RunResult.executed] using hc.symm

/-- C9, as the code has it: a run that returns has handed the execution step a
descriptor whose `Env` list is `os.Environ()` followed by the lines of all
`WithEnv` calls, in order, with no entry removed or replaced; the environment
the child is started with is that list after `dedupEnv` of `os/exec`. -/
theorem Run_env (w : World) (cmd : String) (ms : List Mutator) (r : error)
    (h : (Run w cmd (ms.map (Mutator.fn w))).outcome = .ok r) :
    ∃ c, (Run w cmd (ms.map (Mutator.fn w))).executed = some c ∧
      c.Env = w.environ ++ envLines ms ∧
      environ c = dedupEnv (w.environ ++ envLines ms) := by
  obtain ⟨c, hc⟩ := executed_of_returned w cmd _ r h
  obtain ⟨o1, ho, henv, _, _⟩ := applyOptions_initial w cmd ms
  have hce : c.Env = w.environ ++ envLines ms := by
    rw [executed_of_options w cmd _ o1 c ho hc]
    exact henv
  exact ⟨c, hc, hce, by rw [environ, hce]⟩

/-- The run `WithEnv("A=1")`, `WithEnv("A=2")` on the sample host keeps both
lines in the `Env` list, `A=2` after `A=1`, behind the inherited entries. -/
theorem Run_env_witness :
    (Run sampleWorld "echo"
      ([Mutator.env ["A=1"], Mutator.env ["A=2"]].map (Mutator.fn sampleWorld))).outcome =
      .ok none ∧
    sampleWorld.environ ++ envLines [Mutator.env ["A=1"], Mutator.env ["A=2"]] =
      ["HOME=/users/test", "PATH=/bin", "A=1", "A=2"] ∧
    ∃ c, (Run sampleWorld "echo"
        ([Mutator.env ["A=1"], Mutator.env ["A=2"]].map (Mutator.fn sampleWorld))).executed =
        some c ∧
      c.Env = sampleWorld.environ ++ envLines [Mutator.env ["A=1"], Mutator.env ["A=2"]] ∧
      environ c =
        dedupEnv (sampleWorld.environ ++ envLines [Mutator.env ["A=1"], Mutator.env ["A=2"]]) :=
  ⟨by rfl, by decide,
   Run_env sampleWorld "echo" [Mutator.env ["A=1"], Mutator.env ["A=2"]] none (by rfl)⟩

/-- C9 fails as stated: after `WithEnv("A=1")`, `WithEnv("A=2")` on the sample
host the run returns, and the environment the child is started with holds
`A=2` but not `A=1`, so it is not the snapshot followed by both lines; and
after `WithEnv("HOME=/tmp")` the inherited entry `HOME=/users/test` is gone. -/
theorem child_env_counterexample :
    (Run sampleWorld "echo"
      ([Mutator.env ["A=1"], Mutator.env ["A=2"]].map (Mutator.fn sampleWorld))).outcome =
      .ok none ∧
    (Run sampleWorld "echo"
      ([Mutator.env ["A=1"], Mutator.env ["A=2"]].map
        (Mutator.fn sampleWorld))).executed.map environ =
      some ["HOME=/users/test", "PATH=/bin", "A=2"] ∧
    sampleWorld.environ ++ envLines [Mutator.env ["A=1"], Mutator.env ["A=2"]] =
      ["HOME=/users/test", "PATH=/bin", "A=1", "A=2"] ∧
    (Run sampleWorld "echo"
      ([Mutator.env ["A=1"], Mutator.env ["A=2"]].map
        (Mutator.fn sampleWorld))).executed.map environ ≠
      some (sampleWorld.environ ++ envLines [Mutator.env ["A=1"], Mutator.env ["A=2"]]) ∧
    (Run sampleWorld "echo"
      ([Mutator.env ["HOME=/tmp"]].map (Mutator.fn sampleWorld))).executed.map environ =
      some ["PATH=/bin", "HOME=/tmp"] :=
  ⟨by rfl, by decide, by decide, by decide, by decide⟩

/-- The argument list `Run` executes is the expansion, element by element and
in the same order, of the list the option loop left; the executable path is
the one the loop left, not expanded. -/
theorem Run_expands_args_only (w : World) (cmd : String) (options : List OptionFns)
    (o : CmdOption) (c : Cmd)
    (h : applyOptions options (initial w cmd) = .ok o)
    (hc : (Run w cmd options).executed = some c) :
    c.Args = o.Cmd.Args.map (ExpandEnv w) ∧ c.Args.length = o.Cmd.Args.length ∧
      c.Path = o.Cmd.Path := by
  rw [executed_of_options w cmd options o c h hc]
  simp

/-- C6 at `Run("$HOME/bin/tool")` with `HOME=/users/test`: the expansion of the
command string is `/users/test/bin/tool` and the argument list is expanded, but
the executable path handed to the execution step is still `$HOME/bin/tool`. -/
theorem Run_path_not_expanded :
    ExpandEnv sampleWorld "$HOME/bin/tool" = "/users/test/bin/tool" ∧
    (Run sampleWorld "$HOME/bin/tool" []).executed.map Cmd.Args =
      some ["/users/test/bin/tool"] ∧
    (Run sampleWorld "$HOME/bin/tool" []).executed.map Cmd.Path = some "$HOME/bin/tool" ∧
    ExpandEnv sampleWorld "echo $HOME" = "echo /users/test" ∧
    (Run sampleWorld "echo $HOME" []).executed.map Cmd.Args = some ["echo /users/test"] ∧
    (Run sampleWorld "echo $HOME" []).executed.map Cmd.Path = some "echo $HOME" :=
  ⟨by decide, by decide, by decide, by decide, by decide, by decide⟩

/-! ## The verbose line -/

/-- With `WithVerbose` in the sequence and a writer in effect after it, `Run`
writes the one line `Exec: ` plus the expanded arguments joined by spaces plus
a newline to that writer, and then executes; with no writer in effect the
`Fprintf` of line 92 panics and nothing is written or executed. -/
theorem Run_verbose (w : World) (cmd : String) (ms : List Mutator)
    (hv : Mutator.verbose ∈ ms) :
    (∀ s, sinkAfter ms none = some s →
      ∃ c, c.Stdout = some s ∧
        (Run w cmd (ms.map (Mutator.fn w))).trace =
          [Event.write s ("Exec: " ++ Join c.Args " " ++ "\n"), Event.exec c] ∧
        (Run w cmd (ms.map (Mutator.fn w))).written s =
          ["Exec: " ++ Join c.Args " " ++ "\n"]) ∧
    (sinkAfter ms none = none →
      Run w cmd (ms.map (Mutator.fn w)) = { trace := [], outcome := .error .nilDereference }) := by
  obtain ⟨o1, ho, _, hverb, hsink⟩ := applyOptions_initial w cmd ms
  rw [verboseIn_of_mem ms hv] at hverb
  constructor
  · intro s hs
    rw [hs] at hsink
    refine ⟨{ o1.Cmd with Args := o1.Cmd.Args.map (ExpandEnv w) }, hsink, ?_, ?_⟩
    · rw [Run_verbose_sink w cmd _ o1 s ho hverb hsink]
    · rw [Run_verbose_sink w cmd _ o1 s ho hverb hsink]
      simp [RunResult.written]
  · intro hs
    rw [hs] at hsink
    exact Run_verbose_nil w cmd _ o1 ho hverb hsink

/-- C8 at `Run("echo", WithVerbose())`: no writer was set, the `Fprintf` of
line 92 is called on a nil writer and panics; no line is written and the child
is not executed. -/
theorem Run_verbose_without_sink :
    Mutator.verbose ∈ [Mutator.verbose] ∧
    (Run sampleWorld "echo" ([Mutator.verbose].map (Mutator.fn sampleWorld))).trace = [] ∧
    (Run sampleWorld "echo" ([Mutator.verbose].map (Mutator.fn sampleWorld))).outcome =
      .error .nilDereference ∧
    (Run sampleWorld "echo" ([Mutator.verbose].map (Mutator.fn sampleWorld))).executed = none :=
  ⟨by decide, by rfl, by rfl, by rfl⟩

/-! ## The option closures one by one -/

/-- C7: on a descriptor that has a display string `d`, `WithArgs(args...)`
returns and leaves an argument list of length `1 + len(args)` whose first
element is `d` and whose other elements are `args`, in order. -/
theorem WithArgs_args (o : CmdOption) (args : List String) (d : String)
    (h : o.Cmd.String = .ok d) :
    ∃ o1, WithArgs args o = .ok o1 ∧ o1.Cmd.Args.length = 1 + args.length ∧
      o1.Cmd.Args.head? = some d ∧ o1.Cmd.Args.tail = args := by
  refine ⟨{ o with Cmd := { o.Cmd with Args := [d] ++ args } }, ?_, ?_, rfl, rfl⟩
  · simp [WithArgs, h]
  · simp [Nat.add_comm]

/-- On the descriptor `Run` builds for `sh` on the sample host, whose display
string is `/bin/sh`, `WithArgs("x", "y")` leaves `/bin/sh`, `x`, `y`. -/
theorem WithArgs_args_witness :
    (initial sampleWorld "sh").Cmd.String = .ok "/bin/sh" ∧
    ∃ o1, WithArgs ["x", "y"] (initial sampleWorld "sh") = .ok o1 ∧
      o1.Cmd.Args.length = 1 + ["x", "y"].length ∧
      o1.Cmd.Args.head? = some "/bin/sh" ∧ o1.Cmd.Args.tail = ["x", "y"] :=
  ⟨by rfl, WithArgs_args (initial sampleWorld "sh") ["x", "y"] "/bin/sh" (by rfl)⟩

/-- Every descriptor the option loop of `Run` reaches through constructor calls
has a display string, so `WithArgs` returns wherever it stands in a sequence. -/
theorem String_ok_in_Run (w : World) (cmd : String) (ms : List Mutator) :
    ∃ o1 d, applyOptions (ms.map (Mutator.fn w)) (initial w cmd) = .ok o1 ∧
      o1.Cmd.String = .ok d := by
  have hargs : (initial w cmd).Cmd.Args ≠ [] := by rw [initial_args]; simp
  obtain ⟨o1, h1, hne, _⟩ := applyOptions_mutators w ms (initial w cmd) hargs
  obtain ⟨d, hd⟩ := String_ok_of_args o1.Cmd hne
  exact ⟨o1, d, h1, hd⟩

/-- The closure of `WithPath` stores its argument as given, and the closure of
`WithDir` stores `filepath.Abs` of its argument. -/
theorem WithPath_verbatim (w : World) (o : CmdOption) (p : String) :
    (∃ o1, WithPath p o = .ok o1 ∧ o1.Cmd.Path = p) ∧
    (∃ o2, WithDir w p o = .ok o2 ∧ o2.Cmd.Dir = w.abs p) :=
  ⟨⟨_, rfl, rfl⟩, ⟨_, rfl, rfl⟩⟩

/-- C5 at `WithPath("bin/tool")` with current directory `/work`: the absolute
resolution is `/work/bin/tool`, which is what `WithDir("bin/tool")` stores as
the working directory, but `WithPath` stores `bin/tool`. -/
theorem WithPath_relative :
    sampleWorld.abs "bin/tool" = "/work/bin/tool" ∧
    (WithPath "bin/tool" (initial sampleWorld "sh")).toOption.map (fun o => o.Cmd.Path) =
      some "bin/tool" ∧
    (WithDir sampleWorld "bin/tool" (initial sampleWorld "sh")).toOption.map
      (fun o => o.Cmd.Dir) = some "/work/bin/tool" ∧
    (Run sampleWorld "sh" [WithPath "bin/tool"]).executed.map Cmd.Path = some "bin/tool" :=
  ⟨by decide, by decide, by decide, by decide⟩

/-! ## Two closures on the same field -/

/-- C10, as the code has it: of two closures that assign the same field other
than the environment list and the argument list, the later one leaves the
value it would leave alone; two `WithEnv` calls leave the old list followed by
the earlier and then the later lines; a `WithArgs` call after another leaves
the later arguments behind a first element that is the display string of the
descriptor the earlier call left. -/
theorem later_overrides (w : World) (o : CmdOption) :
    (∀ m1 m2 f, f ∈ Mutator.writes m1 → f ∈ Mutator.writes m2 → f ≠ Field.env →
      f ≠ Field.args →
      ∃ o1 o12 o2, m1.fn w o = .ok o1 ∧ m2.fn w o1 = .ok o12 ∧ m2.fn w o = .ok o2 ∧
        f.agree o12 o2) ∧
    (∀ l1 l2, ∃ o1 o12, WithEnv l1 o = .ok o1 ∧ WithEnv l2 o1 = .ok o12 ∧
      o12.Cmd.Env = o.Cmd.Env ++ l1 ++ l2) ∧
    (∀ a1 a2 o1, WithArgs a1 o = .ok o1 →
      ∃ d o12, o1.Cmd.String = .ok d ∧ WithArgs a2 o1 = .ok o12 ∧
        o12.Cmd.Args = d :: a2) := by
  refine ⟨?_, ?_, ?_⟩
  · intro m1 m2 f h1 h2 he ha
    cases m1 <;> cases m2 <;> cases f <;>
      simp [Mutator.writes] at h1 h2 he ha <;>
      exact ⟨_, _, _, rfl, rfl, rfl, rfl⟩
  · intro l1 l2
    refine ⟨_, _, WithEnv_ok l1 o, WithEnv_ok l2 _, ?_⟩
    simp
  · intro a1 a2 o1 h
    have hne : o1.Cmd.Args ≠ [] := by
      unfold WithArgs at h
      split at h
      · cases h
      · cases h; simp
    obtain ⟨d, hd⟩ := String_ok_of_args o1.Cmd hne
    exact ⟨d, { o1 with Cmd := { o1.Cmd with Args := [d] ++ a2 } }, hd,
      by simp [WithArgs, hd], rfl⟩

/-- Two `WithStdOut` calls on the sample descriptor: the second writer stays. -/
theorem later_overrides_witness :
    Field.stdout ∈ Mutator.writes (Mutator.stdOut (some 1)) ∧
    Field.stdout ∈ Mutator.writes (Mutator.stdOutOrErr (some 2)) ∧
    ∃ o1 o12 o2,
      (Mutator.stdOut (some 1)).fn sampleWorld (initial sampleWorld "sh") = .ok o1 ∧
      (Mutator.stdOutOrErr (some 2)).fn sampleWorld o1 = .ok o12 ∧
      (Mutator.stdOutOrErr (some 2)).fn sampleWorld (initial sampleWorld "sh") = .ok o2 ∧
      Field.stdout.agree o12 o2 :=
  ⟨by decide, by decide,
   (later_overrides sampleWorld (initial sampleWorld "sh")).1 (Mutator.stdOut (some 1))
     (Mutator.stdOutOrErr (some 2)) Field.stdout (by decide) (by decide) (by decide)
     (by decide)⟩

/-- C10 fails as stated: `WithEnv("A=1")` and `WithEnv("A=2")` both assign the
environment list, and after both the list ends `A=1`, `A=2`, while after the
later one alone it ends `A=2`. -/
theorem env_accumulates_counterexample :
    Field.env ∈ Mutator.writes (Mutator.env ["A=1"]) ∧
    Field.env ∈ Mutator.writes (Mutator.env ["A=2"]) ∧
    (Mutator.env ["A=1"]).fn sampleWorld (initial sampleWorld "sh") =
      .ok { Cmd := { (shWith ["sh"]) with Env := ["HOME=/users/test", "PATH=/bin", "A=1"] },
            Verbose := false } ∧
    (Mutator.env ["A=2"]).fn sampleWorld
        { Cmd := { (shWith ["sh"]) with Env := ["HOME=/users/test", "PATH=/bin", "A=1"] },
          Verbose := false } =
      .ok { Cmd := { (shWith ["sh"]) with
                     Env := ["HOME=/users/test", "PATH=/bin", "A=1", "A=2"] },
            Verbose := false } ∧
    (Mutator.env ["A=2"]).fn sampleWorld (initial sampleWorld "sh") =
      .ok { Cmd := { (shWith ["sh"]) with Env := ["HOME=/users/test", "PATH=/bin", "A=2"] },
            Verbose := false } ∧
    ¬ Field.env.agree
        { Cmd := { (shWith ["sh"]) with
                   Env := ["HOME=/users/test", "PATH=/bin", "A=1", "A=2"] },
          Verbose := false }
        { Cmd := { (shWith ["sh"]) with Env := ["HOME=/users/test", "PATH=/bin", "A=2"] },
          Verbose := false } :=
  ⟨by decide, by decide, by rfl, by rfl, by rfl, by simp [Field.agree, shWith]⟩

end Executils
